import Mathlib

/-!
Verification development for the BLE evaluation-kit controller repository.

The repository drives a BLE module over a serial link.  Its core pieces,
embedded below, are:

* the AD TLV codec: `evkit_lib.py` builds advertising payloads as
  `length byte ++ type byte ++ value bytes`, each byte rendered as two
  uppercase hex digits (`set_custom_adv_payload`, `send_initial_payload`),
  and `get_adv_payload_details` scans such a hex string back into fields;
* the response parser `extract_error_code`, a regex search for the reply
  shape `@R,<hex-seq>,<name>,<4 hex digits>`;
* the command exchange `send_custom_command_text` (write command + CRLF,
  one bounded read, parse);
* `set_adv_interval` (millisecond-to-0.625ms-unit conversion with bounds
  checks);
* the incremental payload session of `ble_final_experiment.py`
  (`append_payload`, `parse_payload_unicode` and the update step of `main`).

Hex strings are embedded as lists of hex-digit values (`Nat` < 16); byte
strings as lists of `Nat` < 256; response text as `List Char`.
-/

/-- Hex-digit test, as Python's regex classes `[0-9A-Fa-f]` use it. -/
def isHexDigit (c : Char) : Bool :=
  (decide ('0' ≤ c) && decide (c ≤ '9')) ||
  (decide ('A' ≤ c) && decide (c ≤ 'F')) ||
  (decide ('a' ≤ c) && decide (c ≤ 'f'))

/-- Value of one hex digit, as `int(_, 16)` assigns it. -/
def hexVal (c : Char) : Nat :=
  if '0' ≤ c ∧ c ≤ '9' then c.toNat - 48
  else if 'A' ≤ c ∧ c ≤ 'F' then c.toNat - 55
  else if 'a' ≤ c ∧ c ≤ 'f' then c.toNat - 87
  else 0

/-- Uppercase hex digit character for a value below 16, as the 02X format and
`.hex().upper()` render digits. -/
def hexDigitChar (n : Nat) : Char :=
  if n < 10 then Char.ofNat (48 + n) else Char.ofNat (55 + n)

/-- Turn a hex string literal into the list of its digit values
(used to write expected payloads in the theorems below). -/
def hexStr (s : String) : List Nat := s.data.map hexVal

/-- The two hex digits of one byte, modelling the two-digit uppercase hex
formatting (02X, and `bytes.hex().upper()`) for byte values `b < 256`. -/
def byteHex (b : Nat) : List Nat := [b / 16, b % 16]

/-- Hex rendering of a byte string, as `data_bytes.hex().upper()`. -/
def bytesHex (bs : List Nat) : List Nat := bs.flatMap byteHex

/-- Read a hex-digit string back into bytes two digits at a time, as
`bytes.fromhex` does on an even-length string. -/
def hexToBytes : List Nat → List Nat
  | d1 :: d0 :: rest => (d1 * 16 + d0) :: hexToBytes rest
  | _ => []

/-- One AD structure, fields length, ad_type and value, with `length` counting
the type byte plus the value bytes (data model of the spec, as built by
`set_custom_adv_payload` / `send_initial_payload`). -/
structure AdField where
  length : Nat
  ad_type : Nat
  value : List Nat
deriving DecidableEq, Repr

/-- Well-formedness of a field sequence: every length byte is the value
byte count plus one, fits in one byte, and type and value are bytes. -/
def WF (F : List AdField) : Prop :=
  ∀ f ∈ F, f.length = f.value.length + 1 ∧ f.length ≤ 255 ∧
    f.ad_type < 256 ∧ ∀ b ∈ f.value, b < 256

instance : DecidablePred WF := fun _ => by
  unfold WF; infer_instance

/-- Encoding of one field: `length_byte ++ type_byte ++ value_bytes`, two
uppercase hex digits per byte — the payload layout every builder in
`evkit_lib.py` emits (`length_hex + ad_type_hex + data_hex`). -/
def encodeField (f : AdField) : List Nat :=
  byteHex f.length ++ byteHex f.ad_type ++ bytesHex f.value

/-- Canonical encoding of a field sequence: fields concatenated in order. -/
def adEncode (F : List AdField) : List Nat := F.flatMap encodeField

/-- The shape of one decoded field as `get_adv_payload_details` returns it:
`(field_length, ad_type, field_data)` with the data kept as a hex string. -/
abbrev AdRaw := Nat × Nat × List Nat

/-- Applying `fieldToRaw` gives the tuple `get_adv_payload_details` yields for a
field whose encoding is scanned back: data stays hex-encoded. -/
def fieldToRaw (f : AdField) : AdRaw := (f.length, f.ad_type, bytesHex f.value)

/-- Interpret a decoded tuple as a field by hex-decoding its data. -/
def rawToField (r : AdRaw) : AdField := ⟨r.1, r.2.1, hexToBytes r.2.2⟩

/-- The TLV scan loop of `get_adv_payload_details` (evkit_lib.py lines
959–991), fuel-indexed so that it is structurally recursive: read a length
byte (stop when fewer than two digits remain or the length is zero), read a
type byte (stop when fewer than two digits remain), then take
`(length - 1) * 2` data digits — or whatever remains when the payload is
truncated, in which case the scan stops after recording the partial field.
Each iteration consumes at least four digits, so `raw.length` fuel always
suffices. -/
def decodeFieldsAux : Nat → List Nat → List AdRaw
  | 0, _ => []
  | fuel + 1, raw =>
    match raw with
    | d1 :: d0 :: rest =>
      let field_length := d1 * 16 + d0
      if field_length = 0 then []
      else
        match rest with
        | t1 :: t0 :: rest2 =>
          let ad_type := t1 * 16 + t0
          let data_hex_length := (field_length - 1) * 2
          if rest2.length < data_hex_length then
            [(field_length, ad_type, rest2)]
          else
            (field_length, ad_type, rest2.take data_hex_length) ::
              decodeFieldsAux fuel (rest2.drop data_hex_length)
        | _ => []
    | _ => []

/-- The left-to-right TLV scan of `get_adv_payload_details`. -/
def decodeFields (raw : List Nat) : List AdRaw := decodeFieldsAux raw.length raw

-- Helper lemmas about the codec.

lemma byteHex_parse (b : Nat) : b / 16 * 16 + b % 16 = b := by
  omega

lemma bytesHex_length (bs : List Nat) : (bytesHex bs).length = 2 * bs.length := by
  induction bs with
  | nil => rfl
  | cons b bs ih => simp [bytesHex, byteHex] at ih ⊢; omega

lemma hexToBytes_bytesHex {bs : List Nat} (h : ∀ b ∈ bs, b < 256) :
    hexToBytes (bytesHex bs) = bs := by
  induction bs with
  | nil => rfl
  | cons b bs ih =>
    have : bytesHex (b :: bs) = b / 16 :: b % 16 :: bytesHex bs := by
      simp [bytesHex, byteHex]
    rw [this, hexToBytes, byteHex_parse b,
      ih (fun x hx => h x (List.mem_cons_of_mem _ hx))]

lemma decodeFieldsAux_encode (F : List AdField) (wf : WF F) :
    ∀ fuel, (adEncode F).length ≤ fuel →
      decodeFieldsAux fuel (adEncode F) = F.map fieldToRaw := by
  induction F with
  | nil => intro fuel _; cases fuel <;> rfl
  | cons f fs ih =>
    intro fuel hfuel
    obtain ⟨hlen, hle, hty, hval⟩ := wf f (List.mem_cons_self f fs)
    have wf' : WF fs := fun g hg => wf g (List.mem_cons_of_mem _ hg)
    have henc : adEncode (f :: fs) =
        f.length / 16 :: f.length % 16 :: f.ad_type / 16 :: f.ad_type % 16 ::
          (bytesHex f.value ++ adEncode fs) := by
      simp [adEncode, encodeField, byteHex, bytesHex]
    rw [henc] at hfuel ⊢
    obtain ⟨fuel, rfl⟩ : ∃ n, fuel = n + 1 := by
      cases fuel with
      | zero => simp at hfuel
      | succ n => exact ⟨n, rfl⟩
    rw [decodeFieldsAux]
    have hparse : f.length / 16 * 16 + f.length % 16 = f.length :=
      byteHex_parse _
    have hparse2 : f.ad_type / 16 * 16 + f.ad_type % 16 = f.ad_type :=
      byteHex_parse _
    simp only [hparse, hparse2]
    have hne : ¬ (f.length = 0) := by omega
    simp only [hne, if_false]
    have hdlen : (f.length - 1) * 2 = (bytesHex f.value).length := by
      rw [bytesHex_length]; omega
    have hnottrunc :
        ¬ ((bytesHex f.value ++ adEncode fs).length < (f.length - 1) * 2) := by
      rw [List.length_append, hdlen]; omega
    simp only [hnottrunc, if_false]
    rw [hdlen, List.take_left, List.drop_left]
    have hfs : (adEncode fs).length ≤ fuel := by
      simp at hfuel; omega
    rw [ih wf' fuel hfs]
    simp [fieldToRaw]

lemma decodeFields_encode (F : List AdField) (wf : WF F) :
    decodeFields (adEncode F) = F.map fieldToRaw :=
  decodeFieldsAux_encode F wf _ le_rfl

/-- Claim C1: for every sequence `F` of AD fields with well-formed lengths
(each field's length byte equals the byte count of its value plus one, and
is at least one), decoding the canonical uppercase-hex encoding of `F`
yields exactly `F`: every field comes back with its length byte, its type
byte, and its value (the scan keeps the value hex-encoded, and hex-decoding
it recovers the original bytes). -/
theorem decode_encode_roundtrip (F : List AdField) (wf : WF F) :
    decodeFields (adEncode F) = F.map fieldToRaw ∧
    (decodeFields (adEncode F)).map rawToField = F := by
  refine ⟨decodeFields_encode F wf, ?_⟩
  rw [decodeFields_encode F wf, List.map_map]
  have : ∀ f ∈ F, (rawToField ∘ fieldToRaw) f = f := by
    intro f hf
    obtain ⟨_, _, _, hval⟩ := wf f hf
    simp [rawToField, fieldToRaw, hexToBytes_bytesHex hval]
  calc F.map (rawToField ∘ fieldToRaw) = F.map id := List.map_congr_left this
    _ = F := List.map_id F

/-- Witness for C1 at the flags field `02 01 06`. -/
theorem decode_encode_roundtrip_witness :
    WF [⟨2, 1, [6]⟩] ∧
    decodeFields (adEncode [⟨2, 1, [6]⟩]) = [(2, 1, [0, 6])] ∧
    (decodeFields (adEncode [⟨2, 1, [6]⟩])).map rawToField = [⟨2, 1, [6]⟩] := by
  have hwf : WF [⟨2, 1, [6]⟩] := by decide
  have h := decode_encode_roundtrip [⟨2, 1, [6]⟩] hwf
  exact ⟨hwf, by rw [h.1]; decide, h.2⟩

-- Decoding a prefix of a valid encoding (claim C2).

lemma prefix_split {α : Type} {H A E : List α} (h : H <+: A ++ E)
    (hlen : A.length ≤ H.length) :
    H.take A.length = A ∧ H.drop A.length <+: E := by
  obtain ⟨s, hs⟩ := h
  constructor
  · have h1 : (H ++ s).take A.length = H.take A.length := by
      rw [List.take_append_eq_append_take]
      have : A.length - H.length = 0 := by omega
      simp [this]
    have h2 : (A ++ E).take A.length = A := List.take_left A E
    rw [hs] at h1
    rw [← h1, h2]
  · refine ⟨s.drop (A.length - H.length), ?_⟩
    have h1 : (H ++ s).drop A.length = H.drop A.length ++ s.drop (A.length - H.length) := by
      rw [List.drop_append_eq_append_drop]
    have h2 : (A ++ E).drop A.length = E := List.drop_left A E
    rw [hs] at h1
    rw [← h2, ← h1]

lemma prefix_of_short {α : Type} {H A E : List α} (h : H <+: A ++ E)
    (hlen : H.length ≤ A.length) : H <+: A := by
  have hA : A <+: A ++ E := List.prefix_append A E
  exact List.prefix_of_prefix_length_le h hA hlen

lemma decodeFieldsAux_prefix (F : List AdField) (wf : WF F) :
    ∀ (H : List Nat) (fuel : Nat), H.length ≤ fuel → H <+: adEncode F →
      ∃ k tr, decodeFieldsAux fuel H = ((F.take k).map fieldToRaw) ++ tr ∧
        (tr = [] ∨ ∃ f rest d, F.drop k = f :: rest ∧ d <+: bytesHex f.value ∧
          tr = [(f.length, f.ad_type, d)]) := by
  induction F with
  | nil =>
    intro H fuel _ hp
    have : H = [] := List.prefix_nil.mp (by simpa [adEncode] using hp)
    subst this
    exact ⟨0, [], by cases fuel <;> simp [decodeFieldsAux], Or.inl rfl⟩
  | cons f fs ih =>
    intro H fuel hfuel hp
    obtain ⟨hlen, hle, hty, hval⟩ := wf f (List.mem_cons_self f fs)
    have wf' : WF fs := fun g hg => wf g (List.mem_cons_of_mem _ hg)
    have henc : adEncode (f :: fs) =
        f.length / 16 :: f.length % 16 :: f.ad_type / 16 :: f.ad_type % 16 ::
          (bytesHex f.value ++ adEncode fs) := by
      simp [adEncode, encodeField, byteHex, bytesHex]
    rw [henc] at hp
    -- case on the shape of H
    match H, hp with
    | [], _ =>
      exact ⟨0, [], by cases fuel <;> simp [decodeFieldsAux], Or.inl rfl⟩
    | [x], hp =>
      obtain ⟨s, hs⟩ := hp
      obtain ⟨fuel, rfl⟩ : ∃ n, fuel = n + 1 := by
        cases fuel with
        | zero => simp at hfuel
        | succ n => exact ⟨n, rfl⟩
      exact ⟨0, [], by simp [decodeFieldsAux], Or.inl rfl⟩
    | x1 :: x0 :: H', hp =>
      obtain ⟨s, hs⟩ := hp
      simp only [List.cons_append, List.cons.injEq] at hs
      obtain ⟨rfl, rfl, hs⟩ := hs
      obtain ⟨fuel, rfl⟩ : ∃ n, fuel = n + 1 := by
        cases fuel with
        | zero => simp at hfuel
        | succ n => exact ⟨n, rfl⟩
      have hparse : f.length / 16 * 16 + f.length % 16 = f.length :=
        byteHex_parse _
      have hne : ¬ (f.length / 16 * 16 + f.length % 16 = 0) := by
        rw [hparse]; omega
      match H', hs with
      | [], _ =>
        exact ⟨0, [], by simp [decodeFieldsAux, hne], Or.inl rfl⟩
      | [y], hs =>
        exact ⟨0, [], by simp [decodeFieldsAux, hne], Or.inl rfl⟩
      | y1 :: y0 :: H'', hs =>
        simp only [List.cons_append, List.cons.injEq] at hs
        obtain ⟨rfl, rfl, hs⟩ := hs
        have hpre : H'' <+: bytesHex f.value ++ adEncode fs := ⟨s, hs⟩
        have hdlen : (f.length / 16 * 16 + f.length % 16 - 1) * 2 =
            (bytesHex f.value).length := by
          rw [hparse, bytesHex_length]; omega
        by_cases htr : H''.length < (f.length / 16 * 16 + f.length % 16 - 1) * 2
        · -- truncated final field: H'' is a proper prefix of the data hex
          have hshort : H'' <+: bytesHex f.value := by
            apply prefix_of_short hpre
            omega
          refine ⟨0, [(f.length / 16 * 16 + f.length % 16,
            f.ad_type / 16 * 16 + f.ad_type % 16, H'')], ?_, ?_⟩
          · simp [decodeFieldsAux, hne, htr]
          · right
            refine ⟨f, fs, H'', rfl, hshort, ?_⟩
            rw [hparse, byteHex_parse]
        · -- the field is complete; recurse on the remainder
          have hgelen : (bytesHex f.value).length ≤ H''.length := by omega
          obtain ⟨htake, hdrop⟩ := prefix_split hpre hgelen
          have hfuel' : (H''.drop ((f.length / 16 * 16 + f.length % 16 - 1) * 2)).length ≤ fuel := by
            rw [List.length_drop]
            simp at hfuel
            omega
          obtain ⟨k, tr, heq, hside⟩ := ih wf'
            (H''.drop ((f.length / 16 * 16 + f.length % 16 - 1) * 2)) fuel hfuel'
            (by rw [hdlen]; exact hdrop)
          refine ⟨k + 1, tr, ?_, ?_⟩
          · have hstep : decodeFieldsAux (fuel + 1)
                (f.length / 16 :: f.length % 16 :: f.ad_type / 16 :: f.ad_type % 16 :: H'') =
                (f.length / 16 * 16 + f.length % 16,
                 f.ad_type / 16 * 16 + f.ad_type % 16,
                 H''.take ((f.length / 16 * 16 + f.length % 16 - 1) * 2)) ::
                decodeFieldsAux fuel
                  (H''.drop ((f.length / 16 * 16 + f.length % 16 - 1) * 2)) := by
              simp [decodeFieldsAux, hne, htr]
            rw [hstep, heq]
            have htake' : H''.take ((f.length / 16 * 16 + f.length % 16 - 1) * 2) =
                bytesHex f.value := by rw [hdlen, htake]
            rw [hparse] at htake'
            simp [htake', hparse, byteHex_parse, fieldToRaw]
          · rcases hside with h | ⟨g, rest, d, hdrop', hd, htr'⟩
            · exact Or.inl h
            · exact Or.inr ⟨g, rest, d, by simpa using hdrop', hd, htr'⟩

/-- Claim C2: decoding any hex string `H` that is a prefix of a valid AD
TLV encoding terminates (the scan is a total function) and returns a
possibly shorter, possibly truncated field list: the decoded fields are an
initial run of the encoded fields, followed at most by one partial field
whose value is whatever hex remained.  In addition, a length byte of zero
stops the scan as a sentinel rather than an error, and a lone trailing hex
digit stops the scan without error. -/
theorem decode_prefix_safe :
    (∀ (F : List AdField) (H : List Nat), WF F → H <+: adEncode F →
      ∃ k tr, decodeFields H = ((F.take k).map fieldToRaw) ++ tr ∧
        (tr = [] ∨ ∃ f rest d, F.drop k = f :: rest ∧ d <+: bytesHex f.value ∧
          tr = [(f.length, f.ad_type, d)])) ∧
    (∀ rest : List Nat, decodeFields (0 :: 0 :: rest) = []) ∧
    (∀ d : Nat, decodeFields [d] = []) := by
  refine ⟨?_, ?_, ?_⟩
  · intro F H wf hp
    exact decodeFieldsAux_prefix F wf H H.length le_rfl hp
  · intro rest; simp [decodeFields, decodeFieldsAux]
  · intro d; simp [decodeFields, decodeFieldsAux]

/-- Witness for C2: the 4-digit prefix `0201` of the valid encoding
`020106` decodes to the single truncated field `(2, 1, "")`. -/
theorem decode_prefix_safe_witness :
    WF [⟨2, 1, [6]⟩] ∧ hexStr "0201" <+: adEncode [⟨2, 1, [6]⟩] ∧
    ∃ k tr, decodeFields (hexStr "0201") =
        (([⟨2, 1, [6]⟩].take k).map fieldToRaw) ++ tr ∧
      (tr = [] ∨ ∃ f rest d, [(⟨2, 1, [6]⟩ : AdField)].drop k = f :: rest ∧
        d <+: bytesHex f.value ∧ tr = [(f.length, f.ad_type, d)]) :=
  ⟨by decide, by decide,
    decode_prefix_safe.1 [⟨2, 1, [6]⟩] (hexStr "0201") (by decide) (by decide)⟩

-- The Manufacturer-Specific payload builder (claim C8).

/-- The Manufacturer-Specific AD structure built by `send_initial_payload`
(ble_final_experiment.py lines 91–96) and by the `MANUFACTURER_SPECIFIC_DATA`
branch of `set_custom_adv_payload` (evkit_lib.py lines 743–753):
`length = len(data) + 3` (one type byte plus the two company-id bytes), then
`length_hex + "FF" + "0900" + data.hex().upper()`. -/
def manufacturer_payload_hex (data : List Nat) : List Nat :=
  byteHex (data.length + 3) ++ hexStr "FF" ++ hexStr "0900" ++ bytesHex data

/-- Counterexample to claim C8: a Manufacturer-Specific field with company
id `0900` and payload byte `AB` does not encode to `03FF0900AB`; the length
byte covers the type byte, the company id and the payload
(`len(data) + 3 = 4`), so the encoding is `04FF0900AB`. -/
theorem manufacturer_payload_not_03 :
    manufacturer_payload_hex [0xAB] ≠ hexStr "03FF0900AB" := by decide

/-- Claim C8, amended: building a Manufacturer-Specific field with company
id `0900` and one payload byte `AB` encodes to length byte `0x04` (one type
byte, two company-id bytes and one payload byte), type byte `0xFF`, and
value `0900AB` — full hex string `04FF0900AB`, which decodes back to the
single field `(4, 0xFF, "0900AB")`. -/
theorem manufacturer_payload_AB :
    manufacturer_payload_hex [0xAB] = hexStr "04FF0900AB" ∧
    decodeFields (hexStr "04FF0900AB") = [(4, 0xFF, hexStr "0900AB")] := by
  decide


-- The response parser `extract_error_code` (claims C3, C6, C10).

/-- Tail of Python's `re` pattern `@R,` + hex-run + `,` + comma-free-run + `,` + four captured hex digits
after the command-name field: a comma followed by the four captured status
digits. -/
def matchAfterName : List Char → Option Nat
  | k2 :: a :: b :: c :: d :: _ =>
    if k2 = ',' ∧ isHexDigit a ∧ isHexDigit b ∧ isHexDigit c ∧ isHexDigit d then
      some (((hexVal a * 16 + hexVal b) * 16 + hexVal c) * 16 + hexVal d)
    else none
  | _ => none

/-- Pattern tail after the sequence-id field: the `[^,]+` command name,
a comma, and the status digits.  The greedy `[^,]+` is a maximal run: it
must be followed by `,`, so backtracking can never produce a match that
the maximal-run scan misses. -/
def matchAfterSeq (rest2 : List Char) : Option Nat :=
  if (rest2.takeWhile (fun x => x != ',')).isEmpty then none
  else matchAfterName (rest2.dropWhile (fun x => x != ','))

/-- Pattern tail after the literal `@R,`: the `[0-9A-Fa-f]+` sequence id
(again a maximal run, since the `,` required next is not a hex digit),
a comma, and the rest. -/
def matchReplyTail (rest : List Char) : Option Nat :=
  if (rest.takeWhile isHexDigit).isEmpty then none
  else
    match rest.dropWhile isHexDigit with
    | k :: rest2 => if k = ',' then matchAfterSeq rest2 else none
    | _ => none

/-- The full pattern `@R,` + hex-run + `,` + comma-free-run + `,` + four captured hex digits anchored at
the head of the text. -/
def matchReplyAt : List Char → Option Nat
  | a :: b :: k :: rest =>
    if a = '@' ∧ b = 'R' ∧ k = ',' then matchReplyTail rest else none
  | _ => none

/-- Search as `re.search` does: try the pattern at every start position, left to right. -/
def searchReply : List Char → Option Nat
  | [] => none
  | c :: rest =>
    match matchReplyAt (c :: rest) with
    | some code => some code
    | none => searchReply rest

/-- Function `extract_error_code` (evkit_lib.py lines 623–643): search the response
for the reply shape; if found, the captured four hex digits are the error
code and success is `error_code == 0`; otherwise default to success with
code zero. -/
def extract_error_code (response : List Char) : Bool × Nat :=
  match searchReply response with
  | some error_code => (error_code == 0, error_code)
  | none => (true, 0)

/-- The reply shape `@R,<hex-seq>,<name>,<4 hex digits>` present at the
head of a text, stated declaratively, together with the code value the
four status digits denote. -/
def ReplyAt (s : List Char) (code : Nat) : Prop :=
  ∃ seq name a b c d tail,
    s = '@' :: 'R' :: ',' :: (seq ++ ',' :: (name ++ ',' :: a :: b :: c :: d :: tail)) ∧
    seq ≠ [] ∧ (∀ x ∈ seq, isHexDigit x) ∧
    name ≠ [] ∧ (∀ x ∈ name, x ≠ ',') ∧
    isHexDigit a ∧ isHexDigit b ∧ isHexDigit c ∧ isHexDigit d ∧
    code = ((hexVal a * 16 + hexVal b) * 16 + hexVal c) * 16 + hexVal d

lemma takeWhile_dropWhile_middle (p : Char → Bool) (l1 l2 : List Char) (c : Char)
    (h1 : ∀ x ∈ l1, p x = true) (hc : p c = false) :
    (l1 ++ c :: l2).takeWhile p = l1 ∧ (l1 ++ c :: l2).dropWhile p = c :: l2 := by
  induction l1 with
  | nil => simp [List.takeWhile, List.dropWhile, hc]
  | cons x l1 ih =>
    have hx : p x = true := h1 x (List.mem_cons_self x l1)
    have := ih (fun y hy => h1 y (List.mem_cons_of_mem _ hy))
    simp [List.takeWhile, List.dropWhile, hx, this.1, this.2]

lemma isEmpty_false_of_ne_nil {l : List Char} (h : l ≠ []) : l.isEmpty = false := by
  cases l with
  | nil => exact absurd rfl h
  | cons x xs => rfl

lemma matchAfterName_some {l : List Char} {code : Nat}
    (h : matchAfterName l = some code) :
    ∃ a b c d tail, l = ',' :: a :: b :: c :: d :: tail ∧
      isHexDigit a ∧ isHexDigit b ∧ isHexDigit c ∧ isHexDigit d ∧
      code = ((hexVal a * 16 + hexVal b) * 16 + hexVal c) * 16 + hexVal d := by
  rcases l with _ | ⟨k2, _ | ⟨a, _ | ⟨b, _ | ⟨c, _ | ⟨d, tail⟩⟩⟩⟩⟩
  · exact Option.noConfusion h
  · exact Option.noConfusion h
  · exact Option.noConfusion h
  · exact Option.noConfusion h
  · exact Option.noConfusion h
  · rw [matchAfterName] at h
    by_cases hcond : k2 = ',' ∧ isHexDigit a ∧ isHexDigit b ∧ isHexDigit c ∧ isHexDigit d
    · obtain ⟨rfl, ha, hb, hc, hd⟩ := hcond
      rw [if_pos ⟨rfl, ha, hb, hc, hd⟩] at h
      exact ⟨a, b, c, d, tail, rfl, ha, hb, hc, hd, (Option.some.injEq _ _).mp h |>.symm⟩
    · rw [if_neg hcond] at h
      exact Option.noConfusion h

lemma matchAfterSeq_some {l : List Char} {code : Nat}
    (h : matchAfterSeq l = some code) :
    ∃ name a b c d tail, l = name ++ ',' :: a :: b :: c :: d :: tail ∧
      name ≠ [] ∧ (∀ x ∈ name, x ≠ ',') ∧
      isHexDigit a ∧ isHexDigit b ∧ isHexDigit c ∧ isHexDigit d ∧
      code = ((hexVal a * 16 + hexVal b) * 16 + hexVal c) * 16 + hexVal d := by
  unfold matchAfterSeq at h
  by_cases hname : (l.takeWhile (fun x => x != ',')).isEmpty
  · rw [if_pos hname] at h; exact Option.noConfusion h
  · rw [if_neg hname] at h
    obtain ⟨a, b, c, d, tail, hdw, ha, hb, hc, hd, hcode⟩ := matchAfterName_some h
    refine ⟨l.takeWhile (fun x => x != ','), a, b, c, d, tail, ?_, ?_, ?_,
      ha, hb, hc, hd, hcode⟩
    · have e : l.takeWhile (fun x => x != ',') ++ l.dropWhile (fun x => x != ',') = l :=
        List.takeWhile_append_dropWhile (fun x => x != ',') l
      rw [hdw] at e
      exact e.symm
    · intro hnil; rw [hnil] at hname; exact hname rfl
    · intro x hx
      have := List.mem_takeWhile_imp hx
      simpa using this

lemma matchReplyTail_some {rest : List Char} {code : Nat}
    (h : matchReplyTail rest = some code) :
    ∃ seq name a b c d tail,
      rest = seq ++ ',' :: (name ++ ',' :: a :: b :: c :: d :: tail) ∧
      seq ≠ [] ∧ (∀ x ∈ seq, isHexDigit x) ∧
      name ≠ [] ∧ (∀ x ∈ name, x ≠ ',') ∧
      isHexDigit a ∧ isHexDigit b ∧ isHexDigit c ∧ isHexDigit d ∧
      code = ((hexVal a * 16 + hexVal b) * 16 + hexVal c) * 16 + hexVal d := by
  unfold matchReplyTail at h
  by_cases hseq : (rest.takeWhile isHexDigit).isEmpty
  · rw [if_pos hseq] at h; exact Option.noConfusion h
  · rw [if_neg hseq] at h
    rcases hdw : rest.dropWhile isHexDigit with _ | ⟨k, rest2⟩
    · rw [hdw] at h; exact Option.noConfusion h
    · rw [hdw] at h
      simp only at h
      by_cases hk : k = ','
      · subst hk
        rw [if_pos rfl] at h
        obtain ⟨name, a, b, c, d, tail, hrest2, hn1, hn2, ha, hb, hc, hd, hcode⟩ :=
          matchAfterSeq_some h
        refine ⟨rest.takeWhile isHexDigit, name, a, b, c, d, tail, ?_, ?_, ?_,
          hn1, hn2, ha, hb, hc, hd, hcode⟩
        · have e : rest.takeWhile isHexDigit ++ rest.dropWhile isHexDigit = rest :=
            List.takeWhile_append_dropWhile isHexDigit rest
          rw [hdw, hrest2] at e
          exact e.symm
        · intro hnil; rw [hnil] at hseq; exact hseq rfl
        · intro x hx; exact List.mem_takeWhile_imp hx
      · rw [if_neg hk] at h; exact Option.noConfusion h

lemma matchReplyAt_iff (s : List Char) (code : Nat) :
    matchReplyAt s = some code ↔ ReplyAt s code := by
  constructor
  · intro h
    rcases s with _ | ⟨a, _ | ⟨b, _ | ⟨k, rest⟩⟩⟩
    · exact Option.noConfusion h
    · exact Option.noConfusion h
    · exact Option.noConfusion h
    · rw [matchReplyAt] at h
      by_cases hg : a = '@' ∧ b = 'R' ∧ k = ','
      · obtain ⟨rfl, rfl, rfl⟩ := hg
        rw [if_pos ⟨rfl, rfl, rfl⟩] at h
        obtain ⟨seq, name, x, y, z, w, tail, hrest, h2, h3, h4, h5, h6, h7, h8, h9, h10⟩ :=
          matchReplyTail_some h
        exact ⟨seq, name, x, y, z, w, tail, by rw [hrest], h2, h3, h4, h5, h6, h7, h8, h9, h10⟩
      · rw [if_neg hg] at h
        exact Option.noConfusion h
  · rintro ⟨seq, name, a, b, c, d, tail, rfl, hseq, hseqhex, hname, hnamec, ha, hb, hc, hd, rfl⟩
    have e1 := takeWhile_dropWhile_middle isHexDigit seq
      (name ++ ',' :: a :: b :: c :: d :: tail) ',' (fun x hx => hseqhex x hx) (by decide)
    have e2 := takeWhile_dropWhile_middle (fun x => x != ',') name
      (a :: b :: c :: d :: tail) ',' (fun x hx => by simpa using hnamec x hx) (by decide)
    rw [matchReplyAt, if_pos ⟨rfl, rfl, rfl⟩]
    unfold matchReplyTail
    rw [e1.1, e1.2, if_neg (by rw [isEmpty_false_of_ne_nil hseq]; exact Bool.false_ne_true)]
    show (if ',' = ',' then matchAfterSeq (name ++ ',' :: a :: b :: c :: d :: tail)
      else none) = _
    rw [if_pos rfl]
    unfold matchAfterSeq
    rw [e2.1, e2.2, if_neg (by rw [isEmpty_false_of_ne_nil hname]; exact Bool.false_ne_true)]
    show (if ',' = ',' ∧ isHexDigit a ∧ isHexDigit b ∧ isHexDigit c ∧ isHexDigit d then
      some (((hexVal a * 16 + hexVal b) * 16 + hexVal c) * 16 + hexVal d) else none) = _
    rw [if_pos ⟨rfl, ha, hb, hc, hd⟩]

lemma searchReply_none_iff (s : List Char) :
    searchReply s = none ↔ ∀ i c, ¬ ReplyAt (s.drop i) c := by
  induction s with
  | nil =>
    simp only [searchReply, true_iff]
    intro i c h
    rw [← matchReplyAt_iff] at h
    rw [List.drop_nil] at h
    exact Option.noConfusion h
  | cons x rest ih =>
    constructor
    · intro h i c hr
      rw [searchReply] at h
      rcases hm : matchReplyAt (x :: rest) with _ | code
      · rw [hm] at h
        simp only at h
        cases i with
        | zero =>
          rw [List.drop_zero] at hr
          rw [← matchReplyAt_iff] at hr
          rw [hm] at hr; exact Option.noConfusion hr
        | succ i =>
          exact (ih.mp h) i c (by simpa using hr)
      · rw [hm] at h; exact Option.noConfusion h
    · intro h
      rw [searchReply]
      rcases hm : matchReplyAt (x :: rest) with _ | code
      · simp only
        exact ih.mpr (fun i c hr => h (i + 1) c (by simpa using hr))
      · exact absurd ((matchReplyAt_iff _ _).mp hm) (by simpa using h 0 code)

lemma searchReply_some {s : List Char} {i : Nat} {c : Nat}
    (h : ReplyAt (s.drop i) c)
    (hmin : ∀ j, j < i → ∀ c', ¬ ReplyAt (s.drop j) c') :
    searchReply s = some c := by
  induction s generalizing i with
  | nil =>
    exfalso
    rw [← matchReplyAt_iff] at h
    rw [List.drop_nil] at h
    exact Option.noConfusion h
  | cons x rest ih =>
    cases i with
    | zero =>
      rw [List.drop_zero] at h
      rw [← matchReplyAt_iff] at h
      rw [searchReply, h]
    | succ i =>
      have h0 : ∀ c', ¬ ReplyAt (x :: rest) c' := by
        intro c' hc'
        exact hmin 0 (Nat.succ_pos i) c' (by simpa using hc')
      rw [searchReply]
      rcases hm : matchReplyAt (x :: rest) with _ | code
      · simp only
        exact ih (by simpa using h)
          (fun j hj c' hc' => hmin (j + 1) (by omega) c' (by simpa using hc'))
      · exact absurd ((matchReplyAt_iff _ _).mp hm) (h0 code)

/-- Claim C3: for every response string, if a reply-shaped substring
`@R,<hex-seq>,<name>,<4 hex digits>` is present, `extract_error_code`
returns the (leftmost such) 4-hex-digit group parsed as hexadecimal as the
error code, with success exactly when that code is zero; if no reply-shaped
substring is present, it returns success with code zero.  In particular a
response containing `@R,0001,CMDX,0000` parses to `(true, 0x0000)` and one
containing `@R,0001,CMDX,020C` parses to `(false, 0x020C)`. -/
theorem extract_error_code_spec :
    (∀ s : List Char, (∀ i c, ¬ ReplyAt (s.drop i) c) →
      extract_error_code s = (true, 0)) ∧
    (∀ (s : List Char) (i c : Nat), ReplyAt (s.drop i) c →
      (∀ j, j < i → ∀ c', ¬ ReplyAt (s.drop j) c') →
      extract_error_code s = (c == 0, c)) ∧
    extract_error_code ("@R,0001,CMDX,0000".data) = (true, 0) ∧
    extract_error_code ("@R,0001,CMDX,020C".data) = (false, 0x020C) := by
  refine ⟨?_, ?_, ?_, ?_⟩
  · intro s h
    rw [extract_error_code, (searchReply_none_iff s).mpr h]
  · intro s i c h hmin
    rw [extract_error_code, searchReply_some h hmin]
  · decide
  · decide

/-- Witness for C3: the reply `@R,0001,CMDX,020C` sits at position 0 of
itself, and the parser reports failure with code `0x020C`. -/
theorem extract_error_code_spec_witness :
    extract_error_code ("@R,0001,CMDX,020C".data) = (false, 0x020C) :=
  extract_error_code_spec.2.1 ("@R,0001,CMDX,020C".data) 0 0x020C
    ((matchReplyAt_iff _ _).mp (by decide))
    (fun j hj _ => absurd hj (by omega))

-- The command exchange `send_custom_command_text` (claim C6).

/-- The line terminator appended to every outgoing command. -/
def writtenPacket (command : List Char) : List Char := command ++ ['\r', '\n']

/-- Function `send_custom_command_text` (evkit_lib.py lines 39–54): write
`command + "\r\n"`, perform one bounded read of up to 512 bytes whose text
is `response` (empty when the read timed out with no bytes), and return
`(success, error_code, response)` as produced by `extract_error_code`. -/
def send_custom_command_text (command response : List Char) : Bool × Nat × List Char :=
  (((extract_error_code response).1, (extract_error_code response).2, response))

/-- Counterexample to claim C6: when the bounded read returns no bytes
(empty response text), the exchange is reported with the protocol success
default `(success = true, error_code = 0)` — exactly the conflation the
claim says never happens. -/
theorem empty_response_reports_success :
    send_custom_command_text ("/PING".data) [] = (true, 0, []) := by decide

/-- Claim C6, amended: when the bounded read of a command exchange returns
no bytes within the timeout, the result surfaced to the caller is the
protocol success default `(true, 0)` together with the empty raw response;
there is no distinct no-response condition, so a caller can detect the
timeout only by inspecting the raw response text for emptiness. -/
theorem empty_response_default (command : List Char) :
    send_custom_command_text command [] = (true, 0, []) := by
  rw [send_custom_command_text]
  have h : extract_error_code [] = (true, 0) := by decide
  rw [h]

-- Reading the payload back: `get_adv_payload_details` (claims C10, C7).

/-- Search for Python's `re` pattern `D=([0-9A-Fa-f]+)`: the leftmost
`D=` that is followed by at least one hex digit, capturing the maximal hex
run after it (returned as digit values). -/
def findD : List Char → Option (List Nat)
  | [] => none
  | c :: rest =>
    match c, rest with
    | 'D', '=' :: e :: rest2 =>
      if isHexDigit e then some (((e :: rest2).takeWhile isHexDigit).map hexVal)
      else findD rest
    | _, _ => findD rest

/-- Function `get_adv_payload_details` (evkit_lib.py lines 922–991), with the read
GEAD response passed in: if the exchange was not successful, return
`("", [])`; if the response carries no `D=<hex>` group, return `("", [])`;
otherwise return the raw hex payload together with the TLV scan of it.
The function is total: the scan always terminates and never raises. -/
def get_adv_payload_details (response : List Char) : List Nat × List AdRaw :=
  if (extract_error_code response).1 = false then ([], [])
  else
    match findD response with
    | none => ([], [])
    | some raw_payload => (raw_payload, decodeFields raw_payload)

/-- Claim C10: `get_adv_payload_details` is total (it is a function that
always returns, never raises) and returns the same empty value `("", [])`
both when the GEAD exchange reports failure and when the response carries
no `D=<hex>` group — so at this interface a failed or unreadable device
read is indistinguishable from an empty advertising payload.  The two
concrete conjuncts exhibit the indistinguishability: a failed read and a
success with an empty `D=` group produce identical results. -/
theorem payload_details_failure_empty :
    (∀ response : List Char, (extract_error_code response).1 = false →
      get_adv_payload_details response = ([], [])) ∧
    (∀ response : List Char, findD response = none →
      get_adv_payload_details response = ([], [])) ∧
    get_adv_payload_details ("@R,000D,GEAD,0207\r\n".data) =
      get_adv_payload_details ("@R,000D,GEAD,0000,D=\r\n".data) := by
  refine ⟨?_, ?_, ?_⟩
  · intro response h
    rw [get_adv_payload_details, if_pos h]
  · intro response h
    rw [get_adv_payload_details, h]
    split <;> rfl
  · decide

/-- Witness for C10: the failed GEAD reply `@R,000D,GEAD,0207` yields
`("", [])`. -/
theorem payload_details_failure_empty_witness :
    get_adv_payload_details ("@R,000D,GEAD,0207\r\n".data) = ([], []) :=
  payload_details_failure_empty.1 ("@R,000D,GEAD,0207\r\n".data) (by decide)

-- Advertising-interval conversion `set_adv_interval` (claim C9).

/-- Unit conversion of `set_adv_interval`: `int(round(interval_ms / 0.625))`.
`0.625 = 5/8` is exact in binary64 and for `20 ≤ ms ≤ 10240` the exact
quotient `8*ms/5` has fractional part a multiple of `1/5` (never one half)
and magnitude at most `16384`, so Python's float rounding agrees with exact
rational rounding to the nearest integer, computed here as
`(8*ms + 2) / 5` in integer arithmetic. -/
def interval_units (interval_ms : Nat) : Nat := (interval_ms * 8 + 2) / 5

/-- Four-digit uppercase hex formatting (04X) for `n < 65536`. -/
def toHex4 (n : Nat) : List Char :=
  [hexDigitChar (n / 4096 % 16), hexDigitChar (n / 256 % 16),
   hexDigitChar (n / 16 % 16), hexDigitChar (n % 16)]

/-- The SACP command `extended_adv_config` builds from its defaults with
the advertising-interval parameter `I` substituted
(evkit_lib.py lines 204–261). -/
def sacp_cmd (I : List Char) : List Char :=
  "SACP,P=01,M=00,T=08,H=00,I=".data ++ I ++
    ",C=07,L=00,O=0000,F=02,A=000000000000,Y=00,E=00,S=00,D=00,N=0018".data

/-- Function `extended_adv_config` with an interval argument: stop advertising
(`/CAX`), send the SACP configuration, restart (`/CA`); the returned
result is the SACP exchange's result.  The second component is the list
of packets written to the transport, in order; `rCAX`, `rSACP` and `rCA`
are the three responses read back (only the SACP one matters for the
returned result). -/
def extended_adv_config (I rCAX rSACP rCA : List Char) :
    (Bool × Nat × List Char) × List (List Char) :=
  ((send_custom_command_text (sacp_cmd I) rSACP),
   [writtenPacket ("/CAX".data), writtenPacket (sacp_cmd I), writtenPacket ("/CA".data)])

/-- Function `set_adv_interval` (evkit_lib.py lines 827–856): reject intervals
outside 20–10240 ms with the sentinel code `0xEEEE` before anything is
written to the transport; otherwise convert to 0.625 ms units, format as
four uppercase hex digits, and run `extended_adv_config` with that `I`. -/
def set_adv_interval (interval_ms : Int) (rCAX rSACP rCA : List Char) :
    (Bool × Nat × List Char) × List (List Char) :=
  if interval_ms < 20 ∨ interval_ms > 10240 then
    ((false, 0xEEEE,
      "Interval out of range. Must be between 20 ms and 10240 ms.".data), [])
  else
    extended_adv_config (toHex4 (interval_units interval_ms.toNat)) rCAX rSACP rCA

/-- Claim C9: `set_adv_interval` converts milliseconds to 0.625 ms units by
rounding `ms / 0.625` to the nearest integer and formats the result as four
uppercase hex digits — 100 ms gives unit value 160 and hex `00A0`, which is
what the SACP command carries — and any interval outside the documented
20–10240 ms bounds (for example 19 ms and 10241 ms) is rejected with the
sentinel error code `0xEEEE` before any command is written to the
transport (the written-packet trace is empty). -/
theorem set_adv_interval_spec :
    (∀ (ms : Int) (r1 r2 r3 : List Char), ms < 20 ∨ ms > 10240 →
      set_adv_interval ms r1 r2 r3 =
        ((false, 0xEEEE,
          "Interval out of range. Must be between 20 ms and 10240 ms.".data), [])) ∧
    interval_units 100 = 160 ∧
    toHex4 160 = "00A0".data ∧
    (∀ r1 r2 r3 : List Char, (set_adv_interval 100 r1 r2 r3).2 =
      [writtenPacket ("/CAX".data), writtenPacket (sacp_cmd ("00A0".data)),
       writtenPacket ("/CA".data)]) := by
  refine ⟨?_, by decide, by decide, ?_⟩
  · intro ms r1 r2 r3 h
    rw [set_adv_interval, if_pos h]
  · intro r1 r2 r3
    rw [set_adv_interval, if_neg (by omega)]
    rw [show toHex4 (interval_units (Int.toNat 100)) = "00A0".data from by decide]
    rfl

/-- Witness for C9: 19 ms and 10241 ms are rejected with no packet written,
and 100 ms writes the SACP command carrying `I=00A0`. -/
theorem set_adv_interval_spec_witness :
    set_adv_interval 19 [] [] [] =
      ((false, 0xEEEE,
        "Interval out of range. Must be between 20 ms and 10240 ms.".data), []) ∧
    set_adv_interval 10241 [] [] [] =
      ((false, 0xEEEE,
        "Interval out of range. Must be between 20 ms and 10240 ms.".data), []) ∧
    (set_adv_interval 100 [] [] []).2 =
      [writtenPacket ("/CAX".data), writtenPacket (sacp_cmd ("00A0".data)),
       writtenPacket ("/CA".data)] :=
  ⟨set_adv_interval_spec.1 19 [] [] [] (by omega),
   set_adv_interval_spec.1 10241 [] [] [] (by omega),
   set_adv_interval_spec.2.2.2 [] [] []⟩

-- UTF-8, as the str.encode and bytes.decode calls of the scripts use it.

/-- Standard UTF-8 encoding of one character (RFC 3629), as
`str.encode` with utf-8 produces it. -/
def utf8EncodeChar (c : Char) : List Nat :=
  let n := c.toNat
  if n < 0x80 then [n]
  else if n < 0x800 then [0xC0 + n / 64, 0x80 + n % 64]
  else if n < 0x10000 then [0xE0 + n / 4096, 0x80 + n / 64 % 64, 0x80 + n % 64]
  else [0xF0 + n / 0x40000, 0x80 + n / 4096 % 64, 0x80 + n / 64 % 64, 0x80 + n % 64]

/-- UTF-8 encoding (str.encode) over a whole string. -/
def utf8Encode (s : List Char) : List Nat := s.flatMap utf8EncodeChar

/-- The replacement character U+FFFD emitted by `errors="replace"`. -/
def replChar : Char := Char.ofNat 0xFFFD

/-- Model of bytes.decode with utf-8 and replacement errors: the standard incremental
UTF-8 decoder with the recommended maximal-subpart replacement policy that
CPython implements — a byte that cannot start a sequence yields one U+FFFD;
a well-formed lead byte followed by an out-of-range or missing continuation
yields one U+FFFD for the consumed maximal subpart and decoding resumes at
the offending byte.  Lead-byte ranges exclude overlongs (C0/C1, E0 80–9F,
F0 80–8F), surrogates (ED A0–BF) and code points above U+10FFFF (F4 90–BF,
F5–FF).  Fuel-indexed for structural recursion; each step consumes at
least one byte, so `bs.length` fuel always suffices. -/
def utf8DecodeReplaceAux : Nat → List Nat → List Char
  | 0, _ => []
  | _ + 1, [] => []
  | fuel + 1, b :: rest =>
    if b < 0x80 then Char.ofNat b :: utf8DecodeReplaceAux fuel rest
    else if b < 0xC2 then replChar :: utf8DecodeReplaceAux fuel rest
    else if b ≤ 0xDF then
      match rest with
      | [] => [replChar]
      | b1 :: rest2 =>
        if 0x80 ≤ b1 ∧ b1 ≤ 0xBF then
          Char.ofNat ((b - 0xC0) * 64 + (b1 - 0x80)) :: utf8DecodeReplaceAux fuel rest2
        else replChar :: utf8DecodeReplaceAux fuel rest
    else if b ≤ 0xEF then
      match rest with
      | [] => [replChar]
      | b1 :: rest2 =>
        if (if b = 0xE0 then 0xA0 else 0x80) ≤ b1 ∧
            b1 ≤ (if b = 0xED then 0x9F else 0xBF) then
          match rest2 with
          | [] => [replChar]
          | b2 :: rest3 =>
            if 0x80 ≤ b2 ∧ b2 ≤ 0xBF then
              Char.ofNat (((b - 0xE0) * 64 + (b1 - 0x80)) * 64 + (b2 - 0x80)) ::
                utf8DecodeReplaceAux fuel rest3
            else replChar :: utf8DecodeReplaceAux fuel rest2
        else replChar :: utf8DecodeReplaceAux fuel rest
    else if b ≤ 0xF4 then
      match rest with
      | [] => [replChar]
      | b1 :: rest2 =>
        if (if b = 0xF0 then 0x90 else 0x80) ≤ b1 ∧
            b1 ≤ (if b = 0xF4 then 0x8F else 0xBF) then
          match rest2 with
          | [] => [replChar]
          | b2 :: rest3 =>
            if 0x80 ≤ b2 ∧ b2 ≤ 0xBF then
              match rest3 with
              | [] => [replChar]
              | b3 :: rest4 =>
                if 0x80 ≤ b3 ∧ b3 ≤ 0xBF then
                  Char.ofNat ((((b - 0xF0) * 64 + (b1 - 0x80)) * 64 + (b2 - 0x80)) * 64 +
                    (b3 - 0x80)) :: utf8DecodeReplaceAux fuel rest4
                else replChar :: utf8DecodeReplaceAux fuel rest3
            else replChar :: utf8DecodeReplaceAux fuel rest2
        else replChar :: utf8DecodeReplaceAux fuel rest
    else replChar :: utf8DecodeReplaceAux fuel rest

/-- Decode bytes as UTF-8 with replacement errors. -/
def utf8DecodeReplace (bs : List Nat) : List Char :=
  utf8DecodeReplaceAux bs.length bs

lemma utf8DecodeReplaceAux_ascii :
    ∀ (fuel : Nat) (bs : List Nat), bs.length ≤ fuel → (∀ b ∈ bs, b < 0x80) →
      (utf8DecodeReplaceAux fuel bs).length = bs.length := by
  intro fuel
  induction fuel with
  | zero =>
    intro bs hlen _
    have : bs = [] := List.eq_nil_of_length_eq_zero (by omega)
    subst this; rfl
  | succ fuel ih =>
    intro bs hlen h
    cases bs with
    | nil => rfl
    | cons b rest =>
      have hb : b < 0x80 := h b (List.mem_cons_self b rest)
      simp only [utf8DecodeReplaceAux]
      rw [if_pos hb]
      have := ih rest (by simp at hlen; omega)
        (fun x hx => h x (List.mem_cons_of_mem _ hx))
      simpa using this

lemma utf8DecodeReplace_ascii {bs : List Nat} (h : ∀ b ∈ bs, b < 0x80) :
    (utf8DecodeReplace bs).length = bs.length :=
  utf8DecodeReplaceAux_ascii bs.length bs le_rfl h

-- The incremental payload session of ble_final_experiment.py (claims C4, C5).

/-- The hard-coded source text `DEFAULT_MESSAGE` of
ble_final_experiment.py (the em-dashes are three-byte UTF-8 characters). -/
def DEFAULT_MESSAGE : List Char :=
  ("Divine Mandate for Justice: Cyrus portrays his conquest as being guided by the gods—particularly Marduk—suggesting " ++
   "that his rule is divinely sanctioned to bring order and relief. Restoration and Liberation: He emphasizes that " ++
   "he has liberated people from the hardships and oppressions imposed by previous regimes. Respect for Cultural " ++
   "and Religious Diversity: Cyrus underscores the importance of allowing conquered peoples to honor their own traditions " ++
   "and religious practices. A New Era of Tolerance: By implementing policies that fostered freedom of worship and the " ++
   "right to return home, Cyrus laid the groundwork for a more just and tolerant society. In essence, the message is that " ++
   "legitimate rule comes with the responsibility to ensure the welfare and dignity of all people.").data

/-- The UTF-8 encoding of `DEFAULT_MESSAGE`. -/
def defaultMessageBytes : List Nat := utf8Encode DEFAULT_MESSAGE

/-- Constant `APPEND_INCREMENT`: bytes of text appended per round. -/
def APPEND_INCREMENT : Nat := 24

/-- The session state of ble_final_experiment.py: the source offset
`current_text_offset`, the local mirror `local_custom_payload` (a string,
so measured in characters), the loop's `round_count` and its
`current_custom_data_size` counter. -/
structure SessionState where
  current_text_offset : Nat
  local_custom_payload : List Char
  round_count : Nat
  current_custom_data_size : Nat
deriving DecidableEq, Repr

/-- Function `parse_payload_unicode` (ble_final_experiment.py lines 139–164): find
the first decoded field with AD type `0xFF` whose data starts with the
company id `0900`; drop those four hex digits and decode the remainder as
UTF-8 with replacement (an odd number of remaining digits makes
`bytes.fromhex` raise, which the code turns into `"<decode error>"`);
return the empty string when no such field exists.  (The leading
`len(payload_details) < 2` guard of the source can never fire: the details
are always a pair.) -/
def parse_payload_unicode : List AdRaw → List Char
  | [] => []
  | f :: rest =>
    if f.2.1 = 0xFF ∧ [0, 9, 0, 0] <+: f.2.2 then
      let custom_hex := f.2.2.drop 4
      if custom_hex.length % 2 = 0 then utf8DecodeReplace (hexToBytes custom_hex)
      else "<decode error>".data
    else parse_payload_unicode rest

/-- The filler slice of `append_payload`: the next `append_size` bytes of
the encoded `DEFAULT_MESSAGE` from `current_text_offset`, padded with
spaces when the source is exhausted. -/
def fillerBytes (offset append_size : Nat) : List Nat :=
  let filler := (defaultMessageBytes.drop offset).take append_size
  filler ++ List.replicate (append_size - filler.length) 0x20

/-- Function `append_payload` (ble_final_experiment.py lines 98–137), with the two
transport responses passed in (`rGEAD` for the payload read inside
`get_adv_payload_details`, `rSEAD` for the SEAD append command): advance
the global `current_text_offset` unconditionally, read the device's current
custom data, concatenate it with the filler, rebuild the manufacturer AD
structure, and send it.  Returns the new offset, the command result, and
the SEAD packet that was written. -/
def append_payload (offset append_size : Nat) (rGEAD rSEAD : List Char) :
    Nat × (Bool × Nat × List Char) × List Char :=
  let filler := fillerBytes offset append_size
  let offset' := offset + append_size
  let payload_details := get_adv_payload_details rGEAD
  let current_custom := parse_payload_unicode payload_details.2
  let new_custom_bytes := utf8Encode current_custom ++ filler
  let payload := byteHex (new_custom_bytes.length + 3) ++ hexStr "FF" ++
    hexStr "0900" ++ bytesHex new_custom_bytes
  let cmd := "SEAD,T=01,D=".data ++ payload.map hexDigitChar
  (offset', send_custom_command_text cmd rSEAD, writtenPacket cmd)

/-- One payload-update step of `main` (ble_final_experiment.py lines
276–295): run `append_payload`; on failure stop the loop with the state
otherwise unchanged (the offset was already advanced inside
`append_payload`); on success append the next 24-byte slice of the source
— sliced at the mirror's character length and decoded with replacement —
to the local mirror, bump the size counter and the round counter.  Returns
the new state, whether the loop continues, and the surfaced command
result. -/
def mainStep (s : SessionState) (rGEAD rSEAD : List Char) :
    SessionState × Bool × (Bool × Nat × List Char) :=
  let r := append_payload s.current_text_offset APPEND_INCREMENT rGEAD rSEAD
  let result := r.2.1
  if result.1 then
    let appended_filler :=
      (defaultMessageBytes.drop s.local_custom_payload.length).take APPEND_INCREMENT
    let appended_text := utf8DecodeReplace appended_filler
    (⟨r.1, s.local_custom_payload ++ appended_text, s.round_count + 1,
      s.current_custom_data_size + APPEND_INCREMENT⟩, true, result)
  else
    (⟨r.1, s.local_custom_payload, s.round_count, s.current_custom_data_size⟩,
     false, result)

/-- Counterexample to claim C4: starting from the state reached after the
third append of the spec's scenario (offset 77, mirror = first 77
characters of the message), a failing SEAD append (`@R,0001,SEAD,020C`)
leaves the session with `current_text_offset = 101 ≠ 77`: the source
offset is advanced unconditionally at the start of `append_payload`,
before any failure can be observed, so the session state does not remain
exactly as it was. -/
theorem append_failure_offset_advances :
    (extract_error_code ("@R,0001,SEAD,020C".data)).1 = false ∧
    (mainStep ⟨77, DEFAULT_MESSAGE.take 77, 4, 77⟩ []
      ("@R,0001,SEAD,020C".data)).2.1 = false ∧
    (mainStep ⟨77, DEFAULT_MESSAGE.take 77, 4, 77⟩ []
      ("@R,0001,SEAD,020C".data)).1.current_text_offset = 101 ∧
    (101 : Nat) ≠ 77 := by decide

/-- Claim C4, amended: when the SEAD append command of a payload-session
append fails, the local mirror, round counter and size counter remain
exactly as they were and the failing CommandResult — failure flag, error
code and raw response — is surfaced to the caller, but the source offset
has already been advanced by the append size: `append_payload` bumps the
global `current_text_offset` before issuing any command.  (A failed device
payload read alone does not fail the append: the device's view is then
taken to be empty and the SEAD command is still sent.) -/
theorem append_failure_state (s : SessionState) (rGEAD rSEAD : List Char)
    (h : (extract_error_code rSEAD).1 = false) :
    (mainStep s rGEAD rSEAD).1.local_custom_payload = s.local_custom_payload ∧
    (mainStep s rGEAD rSEAD).1.round_count = s.round_count ∧
    (mainStep s rGEAD rSEAD).1.current_custom_data_size = s.current_custom_data_size ∧
    (mainStep s rGEAD rSEAD).2.1 = false ∧
    (mainStep s rGEAD rSEAD).2.2 = (false, (extract_error_code rSEAD).2, rSEAD) ∧
    (mainStep s rGEAD rSEAD).1.current_text_offset =
      s.current_text_offset + APPEND_INCREMENT := by
  simp only [mainStep, append_payload, send_custom_command_text]
  simp [h]

/-- Witness for C4 (amended): at the concrete post-third-append state with
a failing SEAD response, the mirror stays at 77 characters while the
offset moves to 101 and the error `0x020C` is surfaced. -/
theorem append_failure_state_witness :
    (extract_error_code ("@R,0001,SEAD,020C".data)).1 = false ∧
    (mainStep ⟨77, DEFAULT_MESSAGE.take 77, 4, 77⟩ []
        ("@R,0001,SEAD,020C".data)).1.local_custom_payload =
      DEFAULT_MESSAGE.take 77 ∧
    (mainStep ⟨77, DEFAULT_MESSAGE.take 77, 4, 77⟩ []
        ("@R,0001,SEAD,020C".data)).1.current_text_offset = 77 + APPEND_INCREMENT ∧
    (mainStep ⟨77, DEFAULT_MESSAGE.take 77, 4, 77⟩ []
        ("@R,0001,SEAD,020C".data)).2.2 =
      (false, 0x020C, "@R,0001,SEAD,020C".data) := by
  have h : (extract_error_code ("@R,0001,SEAD,020C".data)).1 = false := by decide
  have hs := append_failure_state ⟨77, DEFAULT_MESSAGE.take 77, 4, 77⟩ []
    ("@R,0001,SEAD,020C".data) h
  refine ⟨h, hs.1, hs.2.2.2.2.2, ?_⟩
  rw [hs.2.2.2.2.1]
  have h2 : (extract_error_code ("@R,0001,SEAD,020C".data)).2 = 0x020C := by decide
  rw [h2]

/-- Counterexample to claim C5: the fourth append of the spec's scenario
succeeds, appends 24 source bytes, yet grows the mirror by only 22
characters (from 77 to 99): the 24-byte slice contains the three-byte
UTF-8 em-dash of the source text, and the mirror is a string measured in
characters. -/
theorem fourth_append_grows_by_22 :
    (mainStep ⟨77, DEFAULT_MESSAGE.take 77, 4, 77⟩ []
      ("@R,0001,SEAD,0000".data)).2.1 = true ∧
    (DEFAULT_MESSAGE.take 77).length = 77 ∧
    (mainStep ⟨77, DEFAULT_MESSAGE.take 77, 4, 77⟩ []
      ("@R,0001,SEAD,0000".data)).1.local_custom_payload.length = 99 ∧
    (99 : Nat) ≠ 77 + 24 := by decide

/-- Claim C5, amended: the local mirror's length never decreases (there is
no erase in the update loop), and on every successful append the round
count increases by exactly one and the mirror is extended by the UTF-8
decoding of the next 24-byte slice of the source — exactly 24 characters
when that slice is pure ASCII (as in the first three appends of the spec's
scenario), fewer when it contains multi-byte characters. -/
theorem append_success_mirror_growth (s : SessionState) (rGEAD rSEAD : List Char) :
    s.local_custom_payload.length ≤
      (mainStep s rGEAD rSEAD).1.local_custom_payload.length ∧
    ((extract_error_code rSEAD).1 = true →
      (mainStep s rGEAD rSEAD).1.round_count = s.round_count + 1 ∧
      (mainStep s rGEAD rSEAD).1.local_custom_payload =
        s.local_custom_payload ++ utf8DecodeReplace
          ((defaultMessageBytes.drop s.local_custom_payload.length).take
            APPEND_INCREMENT) ∧
      ((∀ b ∈ (defaultMessageBytes.drop s.local_custom_payload.length).take
          APPEND_INCREMENT, b < 0x80) →
        (mainStep s rGEAD rSEAD).1.local_custom_payload.length =
          s.local_custom_payload.length +
          ((defaultMessageBytes.drop s.local_custom_payload.length).take
            APPEND_INCREMENT).length)) := by
  by_cases hr : (extract_error_code rSEAD).1 = true
  · constructor
    · simp only [mainStep, append_payload, send_custom_command_text]
      simp [hr]
    · intro _
      refine ⟨?_, ?_, ?_⟩
      · simp only [mainStep, append_payload, send_custom_command_text]
        simp [hr]
      · simp only [mainStep, append_payload, send_custom_command_text]
        simp [hr]
      · intro hascii
        simp only [mainStep, append_payload, send_custom_command_text]
        simp [hr, utf8DecodeReplace_ascii hascii]
  · constructor
    · simp only [mainStep, append_payload, send_custom_command_text]
      simp [hr]
    · intro hcontra
      exact absurd hcontra hr

/-- Witness for C5 (amended): the first append of the scenario (mirror
`"Divin"`, ASCII region of the source) succeeds and grows the mirror by
exactly 24 characters. -/
theorem append_success_mirror_growth_witness :
    (extract_error_code ("@R,0001,SEAD,0000".data)).1 = true ∧
    (∀ b ∈ (defaultMessageBytes.drop ("Divin".data).length).take
        APPEND_INCREMENT, b < 0x80) ∧
    (mainStep ⟨5, "Divin".data, 1, 5⟩ []
        ("@R,0001,SEAD,0000".data)).1.round_count = 1 + 1 ∧
    (mainStep ⟨5, "Divin".data, 1, 5⟩ []
        ("@R,0001,SEAD,0000".data)).1.local_custom_payload.length =
      ("Divin".data).length +
        ((defaultMessageBytes.drop ("Divin".data).length).take
          APPEND_INCREMENT).length := by
  have h1 : (extract_error_code ("@R,0001,SEAD,0000".data)).1 = true := by decide
  have h2 : ∀ b ∈ (defaultMessageBytes.drop ("Divin".data).length).take
      APPEND_INCREMENT, b < 0x80 := by decide
  have hs := (append_success_mirror_growth ⟨5, "Divin".data, 1, 5⟩ []
    ("@R,0001,SEAD,0000".data)).2 h1
  exact ⟨h1, h2, hs.1, hs.2.2 h2⟩

-- Truncation detection (claim C7).

/-- The leftover-bytes/truncation flag as the spec describes it: whether
the TLV scan ran out of data before a field's declared length was
satisfied.  `get_adv_payload_details` computes no such flag — it returns
only the `(raw, fields)` pair — so this definition re-derives from the raw
hex string what a strict caller would need; fuel-indexed like the scan
itself. -/
def decodeTruncatedAux : Nat → List Nat → Bool
  | 0, _ => false
  | fuel + 1, raw =>
    match raw with
    | d1 :: d0 :: rest =>
      if d1 * 16 + d0 = 0 then false
      else
        match rest with
        | t1 :: t0 :: rest2 =>
          if rest2.length < (d1 * 16 + d0 - 1) * 2 then true
          else decodeTruncatedAux fuel (rest2.drop ((d1 * 16 + d0 - 1) * 2))
        | _ => false
    | _ => false

/-- Whether the TLV scan of `raw` cut a field short for lack of input. -/
def decodeTruncated (raw : List Nat) : Bool := decodeTruncatedAux raw.length raw

/-- Counterexample to claim C7: decoding the truncated payload `03FF09`
(declared data length 2 bytes, only 1 byte present) returns exactly the
pair `(raw, fields)` — the same shape as decoding the complete payload
`02FF09` — with no flag component anywhere in the result, even though the
first scan was cut short and the second was not. -/
theorem decode_returns_no_flag :
    get_adv_payload_details ("@R,000D,GEAD,0000,D=03FF09\r\n".data) =
      (hexStr "03FF09", [(3, 0xFF, hexStr "09")]) ∧
    decodeTruncated (hexStr "03FF09") = true ∧
    get_adv_payload_details ("@R,000D,GEAD,0000,D=02FF09\r\n".data) =
      (hexStr "02FF09", [(2, 0xFF, hexStr "09")]) ∧
    decodeTruncated (hexStr "02FF09") = false := by decide

lemma decodeTruncatedAux_iff :
    ∀ (fuel : Nat) (raw : List Nat), raw.length ≤ fuel →
      (decodeTruncatedAux fuel raw = true ↔
        ∃ r ∈ decodeFieldsAux fuel raw, r.2.2.length < (r.1 - 1) * 2) := by
  intro fuel
  induction fuel with
  | zero =>
    intro raw hlen
    have : raw = [] := List.eq_nil_of_length_eq_zero (by omega)
    subst this
    simp [decodeTruncatedAux, decodeFieldsAux]
  | succ fuel ih =>
    intro raw hlen
    rcases raw with _ | ⟨d1, _ | ⟨d0, rest⟩⟩
    · simp [decodeTruncatedAux, decodeFieldsAux]
    · simp [decodeTruncatedAux, decodeFieldsAux]
    · by_cases hz : d1 * 16 + d0 = 0
      · simp [decodeTruncatedAux, decodeFieldsAux, hz]
      · rcases rest with _ | ⟨t1, _ | ⟨t0, rest2⟩⟩
        · simp [decodeTruncatedAux, decodeFieldsAux, hz]
        · simp [decodeTruncatedAux, decodeFieldsAux, hz]
        · by_cases htr : rest2.length < (d1 * 16 + d0 - 1) * 2
          · simp only [decodeTruncatedAux, decodeFieldsAux, hz, if_false, htr, if_true]
            constructor
            · intro _
              exact ⟨(d1 * 16 + d0, t1 * 16 + t0, rest2), by simp, htr⟩
            · intro _; trivial
          · have hrec := ih (rest2.drop ((d1 * 16 + d0 - 1) * 2))
              (by rw [List.length_drop]; simp at hlen; omega)
            simp only [decodeTruncatedAux, decodeFieldsAux, hz, if_false, htr]
            rw [hrec]
            constructor
            · rintro ⟨r, hr, hlt⟩
              exact ⟨r, List.mem_cons_of_mem _ hr, hlt⟩
            · rintro ⟨r, hr, hlt⟩
              rcases List.mem_cons.mp hr with rfl | hr2
              · have hl : (rest2.take ((d1 * 16 + d0 - 1) * 2)).length =
                    (d1 * 16 + d0 - 1) * 2 := by rw [List.length_take]; omega
                simp only [hl] at hlt
                omega
              · exact ⟨r, hr2, hlt⟩

/-- Claim C7, amended: the decode of `get_adv_payload_details` returns only
the `(raw hex, fields)` pair with no explicit truncation flag; whether some
field was cut short by insufficient input is nevertheless recoverable from
the returned result, because the scan was truncated exactly when some
returned field's data is shorter than its declared length announces
(`len(field_data) < (field_length - 1) * 2`) — this is what a strict
caller must check. -/
theorem truncation_detectable_from_fields (raw : List Nat) :
    decodeTruncated raw = true ↔
      ∃ r ∈ decodeFields raw, r.2.2.length < (r.1 - 1) * 2 :=
  decodeTruncatedAux_iff raw.length raw le_rfl
